import Mathlib

/-!
Verification development for the GAIA benchmark repository's text-reduction
pipeline (`src/utils/summarize.py`, function `reduce_text`) and the chunker
described by the specification (its implementation, `summarize_text`, is
imported by `level1.py` but its module body is not part of the sources here,
so the chunker is modelled from the spec).

Conventions of the shallow embedding:
* Python strings are `List Char` (called `Str`); `len` is `List.length`,
  `s[:n]` with a possibly negative `n` is `pyTake`, `str.strip()` is
  `pyStrip` (stripping `Char.isWhitespace` on both ends).
* The external summarizer `ollama.chat` is an oracle `chat : Str → Option Str`
  mapping the full prompt to either a returned message content (`some`) or a
  raised exception (`none`).  All claims quantify over this oracle.
* Python float expressions `int(p * max_context_size * 0.9)` (with
  `p = len(text)/total`) and `int(max_context_size * 0.95)` are embedded as
  the exact rational floors `len * max * 9 / (total * 10)` and
  `max * 95 / 100` on `Nat`.
* Console progress printing is pure side effect except for one semantic
  point: with `show_progress` on, `reduce_text` evaluates
  `max_context_size/total_input_len` before anything else, which raises
  `ZeroDivisionError` when the total input length is zero; that is the one
  Python exception the embedding records (`PyErr.zeroDiv`).
* `reduce_text` returns the result together with the number of `ollama.chat`
  calls performed.
-/

/-- Python strings, embedded as lists of characters. -/
abbrev Str := List Char

/-- The separator `"\n\n---\n\n"` used by `"\n\n---\n\n".join(...)`. -/
def sepStr : Str := "\n\n---\n\n".data

/-- The ellipsis marker `"..."` appended by the truncation fallbacks. -/
def dots : Str := "...".data

/-- Python `"sep".join(pieces)`: the empty string for no pieces, the single
piece alone, otherwise the pieces interleaved with the separator. -/
def joinWith (sp : Str) : List Str → Str
  | [] => []
  | [t] => t
  | t :: u :: rest => t ++ sp ++ joinWith sp (u :: rest)

/-- `"\n\n---\n\n".join(texts)`, the join used throughout `reduce_text`. -/
def joinSep (texts : List Str) : Str := joinWith sepStr texts

/-- `sum(len(text) for text in text_list)`. -/
def totalLen (texts : List Str) : Nat := (texts.map List.length).sum

/-- Python slice `s[:n]` for an `Int` bound: a nonnegative bound takes that
many characters, a negative bound counts from the end (clamped at zero). -/
def pyTake (s : Str) (n : Int) : Str :=
  if 0 ≤ n then s.take n.toNat else s.take ((s.length : Int) + n).toNat

/-- Python `s.strip()`: drop whitespace from both ends. -/
def pyStrip (s : Str) : Str :=
  ((s.dropWhile Char.isWhitespace).reverse.dropWhile Char.isWhitespace).reverse

/-- Opening of the per-text summarization prompt f-string, up to the
interpolated `{target_length}`. -/
def ptPre : Str :=
  "\n        I need you to summarize the following text to approximately ".data

/-- Middle of the per-text prompt, between `{target_length}` and `{text}`. -/
def ptMid : Str :=
  " characters.\n        Focus on preserving:\n        1. Important facts and statistics\n        2. Key values and figures\n        3. Critical context\n        4. Essential points and conclusions\n        \n        Original text:\n        ".data

/-- Tail of the per-text prompt, after the interpolated `{text}`. -/
def ptSuf : Str :=
  "\n        \n        Provide ONLY the summarized text without any meta commentary.\n        ".data

/-- The f-string `prompt` built for one text in the per-text loop. -/
def perTextPrompt (targetLength : Nat) (text : Str) : Str :=
  ptPre ++ (Nat.repr targetLength).data ++ ptMid ++ text ++ ptSuf

/-- Opening of the final summarization prompt f-string, up to
`{final_target}`. -/
def fpPre : Str :=
  "\n    I need you to summarize these already-summarized articles in approximately ".data

/-- Middle of the final prompt, between `{final_target}` and
`{concatenated_summaries}`. -/
def fpMid : Str :=
  " characters.\n    These are already condensed summaries, so focus on preserving the most important:\n    1. Facts and statistics\n    2. Key figures and values\n    3. Critical conclusions\n    \n    The summaries are separated by \"---\" dividers.\n    \n    Summaries to condense:\n    ".data

/-- Tail of the final prompt, after `{concatenated_summaries}`. -/
def fpSuf : Str :=
  "\n    \n    Provide ONLY the summarized text without any meta commentary.\n    ".data

/-- The f-string `final_prompt` built for the final combine call. -/
def finalPrompt (finalTarget : Nat) (concatenatedSummaries : Str) : Str :=
  fpPre ++ (Nat.repr finalTarget).data ++ fpMid ++ concatenatedSummaries ++ fpSuf

/-- Per-text summary target lengths:
`[int(len(text)/total * max_context_size * 0.9) for text in text_list]`,
embedded as the exact floor `len * max * 9 / (total * 10)`. -/
def individualTargets (texts : List Str) (maxCtx : Nat) : List Nat :=
  texts.map (fun t => t.length * maxCtx * 9 / (totalLen texts * 10))

/-- One iteration of the per-text loop of `reduce_text`: the stored entry of
`individual_summaries` together with the number of `ollama.chat` calls made
(0 or 1).  A text already at or under its target is appended verbatim with no
call; otherwise the summarizer is called on the prompt, an exception is
answered by `text[:target_length] + "..."`, a returned summary is stripped
and kept unless it is strictly longer than the source text, in which case the
same truncation replaces it. -/
def entryFor (chat : Str → Option Str) (text : Str) (targetLength : Nat) : Str × Nat :=
  if text.length ≤ targetLength then (text, 0)
  else
    match chat (perTextPrompt targetLength text) with
    | none => (text.take targetLength ++ dots, 1)
    | some raw =>
      if text.length < (pyStrip raw).length then (text.take targetLength ++ dots, 1)
      else (pyStrip raw, 1)

/-- The whole per-text loop: entries and call counts for
`zip(text_list, individual_targets)`. -/
def perTextResults (chat : Str → Option Str) (texts : List Str) (targets : List Nat) :
    List (Str × Nat) :=
  (texts.zip targets).map (fun p => entryFor chat p.1 p.2)

/-- The final combine step of `reduce_text`, reached when the concatenated
summaries still exceed `max_context_size`: one `ollama.chat` call on the final
prompt; an exception is answered by
`concatenated_summaries[:max_context_size - 3] + "..."`; a returned summary is
stripped and, when longer than `max_context_size`, truncated to
`[:max_context_size - 3] + "..."`. -/
def finalCombine (chat : Str → Option Str) (maxCtx : Nat) (concatenatedSummaries : Str) : Str :=
  match chat (finalPrompt (maxCtx * 95 / 100) concatenatedSummaries) with
  | none => pyTake concatenatedSummaries ((maxCtx : Int) - 3) ++ dots
  | some raw =>
    if maxCtx < (pyStrip raw).length then
      pyTake (pyStrip raw) ((maxCtx : Int) - 3) ++ dots
    else pyStrip raw

/-- The one Python exception `reduce_text` itself can raise: the
`ZeroDivisionError` from printing the compression ratio
`max_context_size/total_input_len` when the total input length is zero and
progress display is on. -/
inductive PyErr where
  | zeroDiv
deriving DecidableEq, Repr

/-- `reduce_text(text_list, max_context_size, model, show_progress)` from
`src/utils/summarize.py`, relative to a summarizer oracle `chat` standing for
`ollama.chat` (the `model` string only selects the external model and does not
affect control flow, so it is folded into the oracle).  Returns the result —
`Except.error PyErr.zeroDiv` for the progress-printing division by zero,
otherwise `Except.ok` of the returned string — paired with the number of
summarizer calls made. -/
def reduce_text (texts : List Str) (maxCtx : Nat) (chat : Str → Option Str)
    (showProgress : Bool) : Except PyErr Str × Nat :=
  if showProgress = true ∧ totalLen texts = 0 then (Except.error PyErr.zeroDiv, 0)
  else if totalLen texts ≤ maxCtx then (Except.ok ((joinSep texts).take maxCtx), 0)
  else
    let results := perTextResults chat texts (individualTargets texts maxCtx)
    let concatenated := joinSep (results.map Prod.fst)
    let nCalls := (results.map Prod.snd).sum
    if concatenated.length ≤ maxCtx then (Except.ok concatenated, nCalls)
    else (Except.ok (finalCombine chat maxCtx concatenated), nCalls + 1)

/-- The no-op summarizer that returns its whole input prompt unchanged. -/
def echoChat : Str → Option Str := fun p => some p

/-! ### Basic length lemmas -/

lemma dots_length : dots.length = 3 := by decide

lemma pyTake_length_le (s : Str) (n : Int) (h : 0 ≤ n) :
    (pyTake s n).length ≤ n.toNat := by
  unfold pyTake
  rw [if_pos h, List.length_take]
  exact min_le_left _ _

lemma entryFor_snd_le (chat : Str → Option Str) (text : Str) (t : Nat) :
    (entryFor chat text t).2 ≤ 1 := by
  unfold entryFor
  split
  · simp
  · cases chat (perTextPrompt t text) with
    | none => simp
    | some raw => by_cases h : text.length < (pyStrip raw).length <;> simp [h]

lemma sum_snd_le_length (l : List (Str × Nat)) (h : ∀ x ∈ l, x.2 ≤ 1) :
    (l.map Prod.snd).sum ≤ l.length := by
  induction l with
  | nil => simp
  | cons a t ih =>
    simp only [List.map_cons, List.sum_cons, List.length_cons]
    have ha := h a (by simp)
    have ht := ih (fun x hx => h x (by simp [hx]))
    omega

lemma perTextResults_length (chat : Str → Option Str) (texts : List Str) (targets : List Nat) :
    (perTextResults chat texts targets).length = min texts.length targets.length := by
  simp [perTextResults]

lemma individualTargets_length (texts : List Str) (maxCtx : Nat) :
    (individualTargets texts maxCtx).length = texts.length := by
  simp [individualTargets]

lemma calls_le (chat : Str → Option Str) (texts : List Str) (targets : List Nat) :
    ((perTextResults chat texts targets).map Prod.snd).sum ≤ texts.length := by
  have hall : ∀ x ∈ perTextResults chat texts targets, x.2 ≤ 1 := by
    intro x hx
    rw [perTextResults, List.mem_map] at hx
    obtain ⟨p, hp, rfl⟩ := hx
    exact entryFor_snd_le chat p.1 p.2
  have h := sum_snd_le_length _ hall
  have h2 : (perTextResults chat texts targets).length ≤ texts.length := by
    rw [perTextResults_length]
    exact min_le_left _ _
  omega

lemma reduce_text_snd_le (texts : List Str) (maxCtx : Nat) (chat : Str → Option Str)
    (sp : Bool) : (reduce_text texts maxCtx chat sp).2 ≤ texts.length + 1 := by
  have hc := calls_le chat texts (individualTargets texts maxCtx)
  simp only [reduce_text]
  split
  · simp
  split
  · simp
  split
  · simp only []
    omega
  · simp only []
    omega

lemma finalCombine_length_le (chat : Str → Option Str) (maxCtx : Nat) (concat : Str)
    (h3 : 3 ≤ maxCtx) : (finalCombine chat maxCtx concat).length ≤ maxCtx := by
  have hn : (0 : Int) ≤ (maxCtx : Int) - 3 := by omega
  have ht : ((maxCtx : Int) - 3).toNat = maxCtx - 3 := by omega
  unfold finalCombine
  cases hc : chat (finalPrompt (maxCtx * 95 / 100) concat) with
  | none =>
    have h := pyTake_length_le concat ((maxCtx : Int) - 3) hn
    rw [List.length_append, dots_length]
    omega
  | some raw =>
    dsimp only
    by_cases hl : maxCtx < (pyStrip raw).length
    · rw [if_pos hl, List.length_append, dots_length]
      have h := pyTake_length_le (pyStrip raw) ((maxCtx : Int) - 3) hn
      omega
    · rw [if_neg hl]
      omega

lemma reduce_ok_length_le (texts : List Str) (maxCtx : Nat) (chat : Str → Option Str)
    (sp : Bool) (s : Str) (h3 : 3 ≤ maxCtx)
    (h : (reduce_text texts maxCtx chat sp).1 = Except.ok s) :
    s.length ≤ maxCtx := by
  simp only [reduce_text] at h
  split at h
  · simp at h
  split at h
  · simp only [Except.ok.injEq] at h
    rw [← h, List.length_take]
    exact min_le_left _ _
  split at h
  · simp only [Except.ok.injEq] at h
    rw [← h]
    assumption
  · simp only [Except.ok.injEq] at h
    rw [← h]
    exact finalCombine_length_le chat maxCtx _ h3

lemma totalLen_le_joinSep : ∀ texts : List Str, totalLen texts ≤ (joinSep texts).length := by
  intro texts
  induction texts with
  | nil => simp [totalLen, joinSep, joinWith]
  | cons t rest ih =>
    cases rest with
    | nil => simp [totalLen, joinSep, joinWith]
    | cons u r =>
      simp only [joinSep, joinWith, totalLen, List.map_cons, List.sum_cons,
        List.length_append] at *
      omega


lemma reduce_zero_eq (texts : List Str) (maxCtx : Nat) (chat : Str → Option Str)
    (sp : Bool) (hz : sp = true ∧ totalLen texts = 0) :
    reduce_text texts maxCtx chat sp = (Except.error PyErr.zeroDiv, 0) := by
  simp only [reduce_text]
  rw [if_pos hz]

lemma reduce_fits_eq (texts : List Str) (maxCtx : Nat) (chat : Str → Option Str)
    (sp : Bool) (hz : ¬(sp = true ∧ totalLen texts = 0))
    (hfit : totalLen texts ≤ maxCtx) :
    reduce_text texts maxCtx chat sp = (Except.ok ((joinSep texts).take maxCtx), 0) := by
  simp only [reduce_text]
  rw [if_neg hz, if_pos hfit]

/-! ### Claim C1: the output-budget invariant -/

/-- C1 counterexample: the claim quantifies over every positive
`max_context_size`, but with budget 1 and the single text `"ab"` under an
always-failing summarizer, the final fallback
`concatenated_summaries[:1 - 3] + "..."` uses a negative Python slice that
keeps one character, and `reduce_text` returns `"...."` of length 4 > 1. -/
theorem reduce_text_budget_cex :
    (reduce_text [("ab").data] 1 (fun _ => none) false).1 = Except.ok (("....").data) ∧
    1 < (("....").data).length := by
  refine ⟨rfl, by decide⟩

/-- C1 amended: for every list of texts, every summarizer behavior (any
returned string or a raised exception at any call site) and every
`max_context_size ≥ 3`, any string returned by `reduce_text` — including the
fallback paths where the final summary is too long or the final call fails —
has length at most `max_context_size`.  (For budgets 1 and 2 the fallback
slice `[:max_context_size - 3]` is a negative Python slice and the bound
fails; see the counterexample.) -/
theorem reduce_text_budget_amended (texts : List Str) (maxCtx : Nat)
    (chat : Str → Option Str) (sp : Bool) (s : Str) (h3 : 3 ≤ maxCtx)
    (h : (reduce_text texts maxCtx chat sp).1 = Except.ok s) :
    s.length ≤ maxCtx :=
  reduce_ok_length_le texts maxCtx chat sp s h3 h

/-- Witness for the amended C1: the concrete run on `["abcde"]` with budget 3
under an always-failing summarizer returns `"..."`, of length at most 3. -/
theorem reduce_text_budget_amended_witness :
    3 ≤ 3 ∧ (reduce_text [("abcde").data] 3 (fun _ => none) false).1 =
      Except.ok (("...").data) ∧ (("...").data).length ≤ 3 :=
  ⟨by decide, rfl,
    reduce_text_budget_amended [("abcde").data] 3 (fun _ => none) false (("...").data)
      (by decide) rfl⟩

/-! ### Claim C3: idempotence under no-op -/

/-- C3 counterexample: the texts `["aa", "bb"]` have total length 4 ≤
`max_context_size = 4`, yet the returned string is the 4-character prefix
`"aa\n\n"` of the joined concatenation, not the full concatenation
`"aa\n\n---\n\nbb"`, because the fitting branch still slices the join to
`[:max_context_size]` and the separators push it over the budget. -/
theorem reduce_text_noop_cex :
    totalLen [("aa").data, ("bb").data] ≤ 4 ∧
    (reduce_text [("aa").data, ("bb").data] 4 (fun _ => none) true).1 =
      Except.ok (("aa\n\n").data) ∧
    ("aa\n\n").data ≠ joinSep [("aa").data, ("bb").data] ∧
    (reduce_text [("aa").data, ("bb").data] 4 (fun _ => none) true).2 = 0 := by
  refine ⟨by decide, rfl, by decide, rfl⟩

/-- C3 amended: when `sum(len(t) for t in texts) <= max_context_size` (and the
progress printout does not divide by zero, i.e. the total is nonzero or
progress display is off), `reduce_text` returns exactly the first
`max_context_size` characters of the separator-joined concatenation with zero
summarizer calls; this equals the exact joined concatenation precisely when
the join including separator overhead also fits the budget. -/
theorem reduce_text_noop_amended (texts : List Str) (maxCtx : Nat)
    (chat : Str → Option Str) (sp : Bool)
    (hfit : totalLen texts ≤ maxCtx) (hdiv : totalLen texts ≠ 0 ∨ sp = false) :
    reduce_text texts maxCtx chat sp = (Except.ok ((joinSep texts).take maxCtx), 0) ∧
    ((joinSep texts).length ≤ maxCtx → (joinSep texts).take maxCtx = joinSep texts) := by
  have hz : ¬(sp = true ∧ totalLen texts = 0) := by
    rintro ⟨hsp, h0⟩
    rcases hdiv with h | h
    · exact h h0
    · rw [h] at hsp
      exact Bool.false_ne_true hsp
  exact ⟨reduce_fits_eq texts maxCtx chat sp hz hfit,
    fun hle => List.take_of_length_le hle⟩

/-- Witness for the amended C3: one short text under a large budget comes back
verbatim with zero summarizer calls. -/
theorem reduce_text_noop_amended_witness :
    totalLen [("hi").data] ≤ 10 ∧
    reduce_text [("hi").data] 10 (fun _ => none) true =
      (Except.ok ((joinSep [("hi").data]).take 10), 0) :=
  ⟨by decide,
    (reduce_text_noop_amended [("hi").data] 10 (fun _ => none) true (by decide)
      (Or.inl (by decide))).1⟩

/-! ### Claim C6: the empty input -/

/-- C6 (code bug): with the empty list and the default arguments
(`max_context_size = 2500`, `show_progress = True`), the progress printout
evaluates `max_context_size/total_input_len` with a zero total and raises
`ZeroDivisionError` instead of returning the empty string; with progress
display off the function does return the empty string with zero summarizer
calls. -/
theorem reduce_text_empty_raises :
    reduce_text [] 2500 (fun _ => none) true = (Except.error PyErr.zeroDiv, 0) ∧
    reduce_text [] 2500 (fun _ => none) false = (Except.ok [], 0) := by
  refine ⟨rfl, rfl⟩

/-! ### Claim C8: non-expansion -/

/-- C8 counterexample: with budget 1 and the single text `"abc"` under an
always-failing summarizer, `reduce_text` returns `"...."` of length 4, longer
than the raw separator-joined concatenation `"abc"` of length 3. -/
theorem reduce_text_nonexpansion_cex :
    (reduce_text [("abc").data] 1 (fun _ => none) false).1 = Except.ok (("....").data) ∧
    (joinSep [("abc").data]).length < (("....").data).length := by
  refine ⟨rfl, by decide⟩

/-- C8 amended: for every input list, every summarizer behavior and every
`max_context_size ≥ 3`, any string returned by `reduce_text` is never longer
than the raw concatenation of all input texts joined with the separator.
(For budgets 1 and 2 the ellipsis added after a negative fallback slice can
exceed it; see the counterexample.) -/
theorem reduce_text_nonexpansion_amended (texts : List Str) (maxCtx : Nat)
    (chat : Str → Option Str) (sp : Bool) (s : Str) (h3 : 3 ≤ maxCtx)
    (h : (reduce_text texts maxCtx chat sp).1 = Except.ok s) :
    s.length ≤ (joinSep texts).length := by
  have hjoin := totalLen_le_joinSep texts
  by_cases hz : sp = true ∧ totalLen texts = 0
  · rw [reduce_zero_eq texts maxCtx chat sp hz] at h
    simp at h
  · by_cases hfit : totalLen texts ≤ maxCtx
    · rw [reduce_fits_eq texts maxCtx chat sp hz hfit] at h
      simp only [Except.ok.injEq] at h
      rw [← h, List.length_take]
      exact min_le_right _ _
    · have hs := reduce_ok_length_le texts maxCtx chat sp s h3 h
      omega

/-- Witness for the amended C8: the concrete run on `["abcde"]` with budget 3
returns a string no longer than the joined input. -/
theorem reduce_text_nonexpansion_amended_witness :
    3 ≤ 3 ∧ (reduce_text [("abcde").data] 3 (fun _ => none) false).1 =
      Except.ok (("...").data) ∧
    (("...").data).length ≤ (joinSep [("abcde").data]).length :=
  ⟨by decide, rfl,
    reduce_text_nonexpansion_amended [("abcde").data] 3 (fun _ => none) false
      (("...").data) (by decide) rfl⟩

/-! ### Claim C4: discarding oversized summaries -/

/-- C4 counterexample: the code discards a returned summary only when it is
strictly longer than the source (`len(summary) > len(text)`), not when it is
equally long.  On the single text `"abcd"` with budget 3 (per-text target 2),
a summarizer returning the equally long `"wxyz"` has its output kept, so the
intermediate list stores a summary exactly as long as its source. -/
theorem reduce_text_summary_cex :
    (perTextResults (fun _ => some (("wxyz").data)) [("abcd").data]
      (individualTargets [("abcd").data] 3)).map Prod.fst = [("wxyz").data] ∧
    (("wxyz").data).length = (("abcd").data).length := by
  refine ⟨rfl, by decide⟩

/-- C4 amended: a returned summary is discarded (and replaced by
`text[:target_length] + "..."`) exactly when it is strictly longer than the
source text; a summary equal in length to the source is kept.  Every stored
per-text entry is bounded by `max(len(text), target + 3)` — the truncation
fallback itself can exceed the source length by up to two characters. -/
theorem reduce_text_summary_amended (chat : Str → Option Str) (text : Str)
    (target : Nat) :
    (∀ raw, chat (perTextPrompt target text) = some raw → target < text.length →
      text.length < (pyStrip raw).length →
      (entryFor chat text target).1 = text.take target ++ dots) ∧
    (entryFor chat text target).1.length ≤ max text.length (target + 3) := by
  have htake : (text.take target).length ≤ target := by
    rw [List.length_take]
    exact min_le_left _ _
  constructor
  · intro raw hraw hlt hlong
    unfold entryFor
    rw [if_neg (by omega), hraw]
    dsimp only
    rw [if_pos hlong]
  · unfold entryFor
    by_cases hle : text.length ≤ target
    · rw [if_pos hle]
      exact le_max_left _ _
    · rw [if_neg hle]
      cases hc : chat (perTextPrompt target text) with
      | none =>
        dsimp only
        rw [List.length_append, dots_length]
        exact le_trans (by omega) (le_max_right _ _)
      | some raw =>
        dsimp only
        by_cases hl : text.length < (pyStrip raw).length
        · rw [if_pos hl]
          dsimp only
          rw [List.length_append, dots_length]
          exact le_trans (by omega) (le_max_right _ _)
        · rw [if_neg hl]
          dsimp only
          exact le_trans (by omega) (le_max_left _ _)

/-- Witness for the amended C4: a summarizer answering `"xyzab"` (strictly
longer than the 4-character source `"abcd"` at target 2) is discarded in
favor of `"ab..."`, which is within the `max(len, target + 3)` bound. -/
theorem reduce_text_summary_amended_witness :
    (entryFor (fun _ => some (("xyzab").data)) ("abcd").data 2).1 =
      ("abcd").data.take 2 ++ dots ∧
    (entryFor (fun _ => some (("xyzab").data)) ("abcd").data 2).1.length ≤
      max (("abcd").data).length (2 + 3) :=
  ⟨(reduce_text_summary_amended (fun _ => some (("xyzab").data)) ("abcd").data 2).1
      (("xyzab").data) rfl (by decide) (by decide),
   (reduce_text_summary_amended (fun _ => some (("xyzab").data)) ("abcd").data 2).2⟩

/-! ### Claim C5: exception handling at the summarizer call sites -/

/-- C5: a per-text summarization failure is answered by storing
`text[:target_length] + "..."` for that entry, a final-combine failure is
answered by `concatenated_summaries[:max_context_size - 3] + "..."`, and
whenever the progress printout does not divide by zero `reduce_text` returns
`Except.ok` — no summarizer exception propagates out of its call sites. -/
theorem reduce_text_error_fallback :
    (∀ (text : Str) (target : Nat) (chat : Str → Option Str),
        chat (perTextPrompt target text) = none → target < text.length →
        (entryFor chat text target).1 = text.take target ++ dots) ∧
    (∀ (maxCtx : Nat) (concat : Str) (chat : Str → Option Str),
        chat (finalPrompt (maxCtx * 95 / 100) concat) = none →
        finalCombine chat maxCtx concat = pyTake concat ((maxCtx : Int) - 3) ++ dots) ∧
    (∀ (texts : List Str) (maxCtx : Nat) (chat : Str → Option Str) (sp : Bool),
        totalLen texts ≠ 0 ∨ sp = false →
        ∃ s, (reduce_text texts maxCtx chat sp).1 = Except.ok s) := by
  refine ⟨?_, ?_, ?_⟩
  · intro text target chat hnone hlt
    unfold entryFor
    rw [if_neg (by omega), hnone]
  · intro maxCtx concat chat hnone
    unfold finalCombine
    rw [hnone]
  · intro texts maxCtx chat sp hdiv
    have hz : ¬(sp = true ∧ totalLen texts = 0) := by
      rintro ⟨hsp, h0⟩
      rcases hdiv with h | h
      · exact h h0
      · rw [h] at hsp
        exact Bool.false_ne_true hsp
    simp only [reduce_text]
    rw [if_neg hz]
    split
    · exact ⟨_, rfl⟩
    · split
      · exact ⟨_, rfl⟩
      · exact ⟨_, rfl⟩

/-- Witness for C5 at concrete inputs: an always-failing summarizer yields the
per-text truncation, the final truncation, and an `Except.ok` overall result. -/
theorem reduce_text_error_fallback_witness :
    (entryFor (fun _ => none) ("abcd").data 2).1 = ("abcd").data.take 2 ++ dots ∧
    finalCombine (fun _ => none) 10 ("0123456789ABC").data =
      pyTake ("0123456789ABC").data ((10 : Int) - 3) ++ dots ∧
    ∃ s, (reduce_text [("abcd").data] 3 (fun _ => none) true).1 = Except.ok s :=
  ⟨reduce_text_error_fallback.1 ("abcd").data 2 (fun _ => none) rfl (by decide),
   reduce_text_error_fallback.2.1 10 (("0123456789ABC").data) (fun _ => none) rfl,
   reduce_text_error_fallback.2.2 [("abcd").data] 3 (fun _ => none) true
     (Or.inl (by decide))⟩

/-! ### Claim C7: proportional per-text targets -/

/-- C7 counterexample: the code computes the proportional targets with no
minimum floor, so ten one-character sources under budget 5 all get target 0 —
the degenerate zero-length targets the claimed floor was to prevent. -/
theorem individual_targets_floor_cex :
    individualTargets (List.replicate 10 (['a'])) 5 = List.replicate 10 0 ∧
    0 < totalLen (List.replicate 10 (['a'])) := by
  refine ⟨rfl, by decide⟩

/-- C7 amended: each per-text target equals the proportional share
`int(len(text)/total * max_context_size * 0.9)` (embedded as the exact floor
`len * max * 9 / (total * 10)`), but no minimum floor is applied: with very
many small sources the computed targets are zero. -/
theorem individual_targets_amended :
    (∀ (texts : List Str) (maxCtx : Nat) (i : Nat) (h : i < texts.length)
        (h2 : i < (individualTargets texts maxCtx).length),
        (individualTargets texts maxCtx)[i] =
          (texts[i]).length * maxCtx * 9 / (totalLen texts * 10)) ∧
    individualTargets (List.replicate 10 (['a'])) 5 = List.replicate 10 0 := by
  constructor
  · intro texts maxCtx i h h2
    simp [individualTargets]
  · rfl

/-- Witness for the amended C7 at a concrete index. -/
theorem individual_targets_amended_witness :
    (individualTargets [("abcd").data] 3).get ⟨0, by decide⟩ =
      (([("abcd").data] : List Str).get ⟨0, by decide⟩).length * 3 * 9 /
        (totalLen [("abcd").data] * 10) := by
  have h := individual_targets_amended.1 [("abcd").data] 3 0 (by decide) (by decide)
  simpa using h

/-! ### Claim C10: summarizer call count -/

/-- C10: `reduce_text` makes at most `n + 1` summarizer calls on `n` texts —
at most one per text plus at most one final combine call — and a text whose
length is at most its computed target is passed through verbatim to the
intermediate summary list with no call at all. -/
theorem reduce_text_call_bound (texts : List Str) (maxCtx : Nat)
    (chat : Str → Option Str) (sp : Bool) :
    (reduce_text texts maxCtx chat sp).2 ≤ texts.length + 1 ∧
    ∀ (i : Nat) (h : i < texts.length)
      (h2 : i < (individualTargets texts maxCtx).length)
      (h3 : i < (perTextResults chat texts (individualTargets texts maxCtx)).length),
      (texts[i]).length ≤ (individualTargets texts maxCtx)[i] →
      (perTextResults chat texts (individualTargets texts maxCtx))[i] = (texts[i], 0) := by
  constructor
  · exact reduce_text_snd_le texts maxCtx chat sp
  · intro i h h2 h3 hle
    simp only [perTextResults, List.getElem_map, List.getElem_zip]
    unfold entryFor
    rw [if_pos hle]

/-- Witness for C10: a run on two texts makes at most three calls, and the
empty first text (target 0) is passed through verbatim with no call. -/
theorem reduce_text_call_bound_witness :
    (reduce_text [[], ("abcdef").data] 3 (fun _ => none) false).2 ≤ 2 + 1 ∧
    (perTextResults (fun _ => none) [[], ("abcdef").data]
      (individualTargets [[], ("abcdef").data] 3)).get ⟨0, by decide⟩ = ([], 0) := by
  have h := reduce_text_call_bound [[], ("abcdef").data] 3 (fun _ => none) false
  refine ⟨by simpa using h.1, ?_⟩
  have h2 := h.2 0 (by decide) (by decide) (by decide) (by decide)
  simpa using h2

/-! ### Stripping the prompts: the echo summarizer never shrinks its input -/

lemma dropWhile_append_of_ne (p : Char → Bool) (a b : Str) (h : a.dropWhile p ≠ []) :
    (a ++ b).dropWhile p = a.dropWhile p ++ b := by
  rw [List.dropWhile_append, List.isEmpty_eq_false.mpr h]
  simp

lemma pyStrip_sandwich (pre mid suf : Str)
    (hpre : pre.dropWhile Char.isWhitespace ≠ [])
    (hsuf : suf.reverse.dropWhile Char.isWhitespace ≠ []) :
    pyStrip (pre ++ mid ++ suf) =
      pre.dropWhile Char.isWhitespace ++ mid ++
        (suf.reverse.dropWhile Char.isWhitespace).reverse := by
  unfold pyStrip
  rw [List.append_assoc, dropWhile_append_of_ne _ _ _ hpre, List.reverse_append,
    List.reverse_append, List.append_assoc, dropWhile_append_of_ne _ _ _ hsuf,
    List.reverse_append, List.reverse_append]
  simp [List.append_assoc]

lemma ptPre_strip_ne : ptPre.dropWhile Char.isWhitespace ≠ [] := by decide

lemma ptSuf_strip_ne : ptSuf.reverse.dropWhile Char.isWhitespace ≠ [] := by decide

lemma fpPre_strip_ne : fpPre.dropWhile Char.isWhitespace ≠ [] := by decide

lemma fpSuf_strip_ne : fpSuf.reverse.dropWhile Char.isWhitespace ≠ [] := by decide

lemma perTextPrompt_eq (target : Nat) (text : Str) :
    perTextPrompt target text =
      ptPre ++ ((Nat.repr target).data ++ ptMid ++ text) ++ ptSuf := by
  simp [perTextPrompt, List.append_assoc]

lemma finalPrompt_eq (finalTarget : Nat) (concat : Str) :
    finalPrompt finalTarget concat =
      fpPre ++ ((Nat.repr finalTarget).data ++ fpMid ++ concat) ++ fpSuf := by
  simp [finalPrompt, List.append_assoc]

lemma strip_perTextPrompt_gt (target : Nat) (text : Str) :
    text.length < (pyStrip (perTextPrompt target text)).length := by
  rw [perTextPrompt_eq, pyStrip_sandwich _ _ _ ptPre_strip_ne ptSuf_strip_ne]
  have h1 := List.length_pos.mpr ptPre_strip_ne
  have h2 := List.length_pos.mpr ptSuf_strip_ne
  simp only [List.length_append, List.length_reverse]
  omega

lemma strip_finalPrompt_gt (finalTarget : Nat) (concat : Str) :
    concat.length < (pyStrip (finalPrompt finalTarget concat)).length := by
  rw [finalPrompt_eq, pyStrip_sandwich _ _ _ fpPre_strip_ne fpSuf_strip_ne]
  have h1 := List.length_pos.mpr fpPre_strip_ne
  have h2 := List.length_pos.mpr fpSuf_strip_ne
  simp only [List.length_append, List.length_reverse]
  omega

lemma entryFor_echo (text : Str) (target : Nat) (h : target < text.length) :
    (entryFor echoChat text target).1 = text.take target ++ dots := by
  unfold entryFor echoChat
  rw [if_neg (by omega)]
  dsimp only
  rw [if_pos (strip_perTextPrompt_gt target text)]

lemma finalCombine_echo (maxCtx : Nat) (concat : Str) (h : maxCtx < concat.length) :
    finalCombine echoChat maxCtx concat =
      pyTake (pyStrip (finalPrompt (maxCtx * 95 / 100) concat)) ((maxCtx : Int) - 3) ++
        dots := by
  unfold finalCombine echoChat
  dsimp only
  rw [if_pos (lt_trans h (strip_finalPrompt_gt (maxCtx * 95 / 100) concat))]

/-! ### Claim C2: bounded rounds and guaranteed termination -/

/-- C2: `reduce_text` performs at most one per-text round plus one final
combine round — at most `n + 1` summarizer calls on `n` texts, for every
summarizer behavior — and with the no-op summarizer that returns its input
(the prompt) unchanged on every call, every summarized entry falls back to the
deterministic truncation `text[:target] + "..."` (the echoed prompt is always
longer than the source and is discarded), and an over-budget final combine
falls back to the deterministic `[:max_context_size - 3] + "..."` truncation
of the echoed text, rather than looping. -/
theorem reduce_text_terminates :
    (∀ (texts : List Str) (maxCtx : Nat) (chat : Str → Option Str) (sp : Bool),
        (reduce_text texts maxCtx chat sp).2 ≤ texts.length + 1) ∧
    (∀ (text : Str) (target : Nat), target < text.length →
        (entryFor echoChat text target).1 = text.take target ++ dots) ∧
    (∀ (maxCtx : Nat) (concat : Str), maxCtx < concat.length →
        finalCombine echoChat maxCtx concat =
          pyTake (pyStrip (finalPrompt (maxCtx * 95 / 100) concat))
            ((maxCtx : Int) - 3) ++ dots) :=
  ⟨reduce_text_snd_le, entryFor_echo, finalCombine_echo⟩

/-- Witness for C2: a concrete echo-summarizer run stays within two calls on
one text, and the echoed per-text summary is replaced by the truncation. -/
theorem reduce_text_terminates_witness :
    (reduce_text [("ab").data] 1 echoChat false).2 ≤ 1 + 1 ∧
    (entryFor echoChat ("abc").data 1).1 = ("abc").data.take 1 ++ dots :=
  ⟨reduce_text_terminates.1 [("ab").data] 1 echoChat false,
   reduce_text_terminates.2.1 ("abc").data 1 (by decide)⟩

/-! ### The chunker, modelled from the specification (claim C9) -/

/-- Modelled from the spec: the paragraphs of a text for the chunker whose
implementation (`summarize_text`, imported by `level1.py` from
`utils.summarize`) is missing from the sources — "Split `text` on a paragraph
separator (a blank line)": lines are grouped between blank lines and rejoined
with newlines; empty groups are dropped so every paragraph is non-empty. -/
def paragraphs (text : Str) : List Str :=
  (((text.splitOn '\n').splitOn []).map (joinWith ['\n'])).filter (fun p => !p.isEmpty)

/-- Modelled from the spec: accumulator for the whitespace-delimited words of
a text, part of the chunker's word-level fallback. -/
def wordsAux : Str → Str → List Str
  | [], buf => if buf = [] then [] else [buf.reverse]
  | c :: rest, buf =>
    if c.isWhitespace then
      if buf = [] then wordsAux rest [] else buf.reverse :: wordsAux rest []
    else wordsAux rest (c :: buf)

/-- Modelled from the spec: the whitespace-delimited words of a text. -/
def wordsOf (text : Str) : List Str := wordsAux text []

/-- Modelled from the spec: "Greedily accumulate paragraphs into a running
buffer; emit the buffer as a chunk and start a new one whenever adding the
next paragraph would exceed `max_chunk_size`, unless the buffer is currently
empty (a lone paragraph larger than the limit is emitted as-is — never
dropped)"; the same rule serves the word-level fallback. -/
def greedyGo (sp : Str) (maxSize : Nat) : Str → List Str → List Str
  | buf, [] => if buf = [] then [] else [buf]
  | buf, u :: rest =>
    if buf = [] then greedyGo sp maxSize u rest
    else if buf.length + sp.length + u.length ≤ maxSize then
      greedyGo sp maxSize (buf ++ sp ++ u) rest
    else buf :: greedyGo sp maxSize u rest

/-- Modelled from the spec: fixed-size raw slicing, "the final guarantee of
termination" for degenerate input; the fuel argument is the text length. -/
def rawSlicesGo (maxSize : Nat) : Nat → Str → List Str
  | 0, _ => []
  | _ + 1, [] => []
  | fuel + 1, c :: rest =>
    (c :: rest).take maxSize :: rawSlicesGo maxSize fuel ((c :: rest).drop maxSize)

/-- Modelled from the spec: raw slicing of a whole text into
`max_chunk_size`-sized pieces. -/
def rawSlices (maxSize : Nat) (text : Str) : List Str :=
  rawSlicesGo maxSize text.length text

/-- Modelled from the spec: `chunk(text, max_chunk_size)` — split into
paragraphs and accumulate greedily; when the input exceeds the limit yet has
at most one paragraph, fall back to whitespace-delimited words under the same
greedy rule; when even a single word exceeds the limit, fall back to
fixed-size raw slicing. -/
def chunk (text : Str) (maxChunkSize : Nat) : List Str :=
  if (paragraphs text).length ≤ 1 ∧ maxChunkSize < text.length then
    if (wordsOf text).all (fun w => w.length ≤ maxChunkSize) then
      greedyGo ([' ']) maxChunkSize [] (wordsOf text)
    else rawSlices maxChunkSize text
  else greedyGo (['\n', '\n']) maxChunkSize [] (paragraphs text)

lemma greedyGo_sound (sp : Str) (maxSize : Nat) (P : Str → Prop) :
    ∀ (units : List Str) (buf : Str),
      (∀ u ∈ units, u ≠ [] ∧ P u) →
      (buf ≠ [] → buf.length ≤ maxSize ∨ P buf) →
      ∀ c ∈ greedyGo sp maxSize buf units, c ≠ [] ∧ (c.length ≤ maxSize ∨ P c) := by
  intro units
  induction units with
  | nil =>
    intro buf hu hbuf c hc
    unfold greedyGo at hc
    by_cases hb : buf = []
    · rw [if_pos hb] at hc
      simp at hc
    · rw [if_neg hb] at hc
      rcases List.mem_singleton.mp hc with rfl
      exact ⟨hb, hbuf hb⟩
  | cons u rest ih =>
    intro buf hu hbuf c hc
    have hu1 : u ≠ [] ∧ P u := hu u (List.mem_cons_self u rest)
    have hurest : ∀ v ∈ rest, v ≠ [] ∧ P v := fun v hv => hu v (List.mem_cons_of_mem u hv)
    unfold greedyGo at hc
    by_cases hb : buf = []
    · rw [if_pos hb] at hc
      exact ih u hurest (fun _ => Or.inr hu1.2) c hc
    · rw [if_neg hb] at hc
      by_cases hfit : buf.length + sp.length + u.length ≤ maxSize
      · rw [if_pos hfit] at hc
        refine ih (buf ++ sp ++ u) hurest (fun _ => Or.inl ?_) c hc
        simp only [List.length_append]
        omega
      · rw [if_neg hfit] at hc
        rcases List.mem_cons.mp hc with rfl | hmem
        · exact ⟨hb, hbuf hb⟩
        · exact ih u hurest (fun _ => Or.inr hu1.2) c hmem

lemma paragraphs_ne (text : Str) : ∀ p ∈ paragraphs text, p ≠ [] := by
  intro p hp
  have h := (List.mem_filter.mp hp).2
  simpa using h

lemma wordsAux_ne : ∀ (s buf : Str) (w : Str), w ∈ wordsAux s buf → w ≠ [] := by
  intro s
  induction s with
  | nil =>
    intro buf w hw
    unfold wordsAux at hw
    by_cases hb : buf = []
    · rw [if_pos hb] at hw
      simp at hw
    · rw [if_neg hb] at hw
      rcases List.mem_singleton.mp hw with rfl
      simpa [List.reverse_eq_nil_iff] using hb
  | cons c rest ih =>
    intro buf w hw
    unfold wordsAux at hw
    by_cases hws : c.isWhitespace
    · rw [if_pos hws] at hw
      by_cases hb : buf = []
      · rw [if_pos hb] at hw
        exact ih [] w hw
      · rw [if_neg hb] at hw
        rcases List.mem_cons.mp hw with rfl | hmem
        · simpa [List.reverse_eq_nil_iff] using hb
        · exact ih [] w hmem
    · rw [if_neg hws] at hw
      exact ih (c :: buf) w hw

lemma rawSlicesGo_sound (maxSize : Nat) (hpos : 0 < maxSize) :
    ∀ (fuel : Nat) (s : Str), ∀ c ∈ rawSlicesGo maxSize fuel s,
      c ≠ [] ∧ c.length ≤ maxSize := by
  intro fuel
  induction fuel with
  | zero =>
    intro s c hc
    simp [rawSlicesGo] at hc
  | succ n ih =>
    intro s c hc
    cases s with
    | nil => simp [rawSlicesGo] at hc
    | cons a t =>
      unfold rawSlicesGo at hc
      rcases List.mem_cons.mp hc with rfl | hmem
      · constructor
        · obtain ⟨m, rfl⟩ := Nat.exists_eq_succ_of_ne_zero (Nat.pos_iff_ne_zero.mp hpos)
          rw [List.take_succ_cons]
          exact List.cons_ne_nil a _
        · rw [List.length_take]
          exact min_le_left _ _
      · exact ih _ c hmem

/-! ### Claim C9: the chunker contract -/

/-- C9 (chunker modelled from the spec): for every text and every positive
`max_chunk_size`, `chunk` returns a sequence of non-empty strings, each of
length at most `max_chunk_size` except when the chunk is a single atomic unit
(one whole paragraph, or one whole word; the raw-slicing fallback never
exceeds the limit), which is then emitted alone. -/
theorem chunk_contract (text : Str) (maxChunkSize : Nat) (hpos : 0 < maxChunkSize) :
    ∀ c ∈ chunk text maxChunkSize,
      c ≠ [] ∧ (c.length ≤ maxChunkSize ∨ c ∈ paragraphs text ∨ c ∈ wordsOf text) := by
  intro c hc
  unfold chunk at hc
  split at hc
  · split at hc
    · have h := greedyGo_sound ([' ']) maxChunkSize (fun x => x ∈ wordsOf text)
        (wordsOf text) []
        (fun u hu => ⟨wordsAux_ne text [] u hu, hu⟩)
        (fun hb => absurd rfl hb) c hc
      exact ⟨h.1, h.2.elim Or.inl (fun hm => Or.inr (Or.inr hm))⟩
    · have h := rawSlicesGo_sound maxChunkSize hpos text.length text c hc
      exact ⟨h.1, Or.inl h.2⟩
  · have h := greedyGo_sound (['\n', '\n']) maxChunkSize (fun x => x ∈ paragraphs text)
      (paragraphs text) []
      (fun u hu => ⟨paragraphs_ne text u hu, hu⟩)
      (fun hb => absurd rfl hb) c hc
    exact ⟨h.1, h.2.elim Or.inl (fun hm => Or.inr (Or.inl hm))⟩

/-- Witness for C9: on `"hello world"` with limit 5 the chunker emits
`"hello"`, a non-empty chunk within the size bound. -/
theorem chunk_contract_witness :
    ("hello").data ≠ [] ∧
      ((("hello").data).length ≤ 5 ∨ ("hello").data ∈ paragraphs (("hello world").data) ∨
        ("hello").data ∈ wordsOf (("hello world").data)) :=
  chunk_contract (("hello world").data) 5 (by decide) (("hello").data) (by decide)
